import Mathlib

/-!
Verification development for the cs_dump utility (ConfigEditor repository,
file src/cs_dump.py).  The program has two parts:

* an output-path resolver, get_unique_output_filename, which scans a
  directory listing for filenames of the shape stem_<digits>ext (a Python
  regular expression built from the base filename) and returns the path
  with the next numeric suffix; and
* a collector, collect_source_files, which walks an input directory tree
  top-down, prunes excluded directories, filters files by extension,
  sorts filenames within each directory, and concatenates the file
  contents into the resolved output file with banner separators.

The development embeds both parts as executable Lean functions over
explicit data (directory listings as lists of filenames, the directory
tree as an inductive type, file reading as a function from relative path
to a read result) and proves the specified properties about them.
-/

deriving instance DecidableEq for Except

/- ===================== Decimal rendering and parsing ===================== -/

/-- Decimal digit character for a value below ten.  Used to model the decimal
rendering of an integer performed by the Python f-string
f"\x7bbase_filename\x7d_\x7bnew_number\x7d\x7bext\x7d". -/
def digitChar (n : Nat) : Char :=
  match n with
  | 0 => '0' | 1 => '1' | 2 => '2' | 3 => '3' | 4 => '4'
  | 5 => '5' | 6 => '6' | 7 => '7' | 8 => '8' | 9 => '9'
  | _ => '*'

/-- Decimal digit list of a natural number, most significant digit first.
The first argument is fuel (any value above the number works); this keeps the
definition structurally recursive so that it reduces inside the kernel. -/
def decDigitsAux : Nat → Nat → List Char
  | 0, _ => []
  | fuel + 1, n =>
    if n < 10 then [digitChar n]
    else decDigitsAux fuel (n / 10) ++ [digitChar (n % 10)]

/-- Decimal rendering of a natural number, as Python str() renders a
non-negative int. -/
def natToDec (n : Nat) : String := ⟨decDigitsAux (n + 1) n⟩

/-- Base code points of the Unicode decimal-digit runs.  The Unicode Nd
category consists exactly of contiguous runs of ten code points carrying the
digit values 0 through 9, and this list holds the code point of the 0 digit
of every run (Unicode 14.0.0, the table the Python build's re module and
int() use).  A backslash-d class in a str pattern compiled without re.ASCII
matches precisely the characters of these runs. -/
def ndBases : List Nat :=
  [48, 1632, 1776, 1984, 2406, 2534, 2662, 2790, 2918, 3046, 3174, 3302,
   3430, 3558, 3664, 3792, 3872, 4160, 4240, 6112, 6160, 6470, 6608, 6784,
   6800, 6992, 7088, 7232, 7248, 42528, 43216, 43264, 43472, 43504, 43600,
   44016, 65296, 66720, 68912, 69734, 69872, 69942, 70096, 70384, 70736,
   70864, 71248, 71360, 71472, 71904, 72016, 72784, 73040, 73120, 92768,
   92864, 93008, 120782, 120792, 120802, 120812, 120822, 123200, 123632,
   125264, 130032]

/-- Run base of a Unicode decimal digit, none for any other character. -/
def ndBaseOf (c : Char) : Option Nat :=
  ndBases.find? (fun b => b ≤ c.toNat && c.toNat ≤ b + 9)

/-- Digit class of the compiled pattern's digit group: the Unicode decimal
digits. -/
def isPyDigit (c : Char) : Bool := (ndBaseOf c).isSome

/-- Decimal value of a Unicode decimal digit, its offset inside its run, as
unicodedata assigns it and int() parses it; zero for non-digits. -/
def pyDigitVal (c : Char) : Nat :=
  match ndBaseOf c with
  | some b => c.toNat - b
  | none => 0

/-- Numeric value of a digit list, as computed by Python int() applied to the
captured group of Unicode decimal digits: each digit contributes its decimal
digit value. -/
def digVal (ds : List Char) : Nat := ds.foldl (fun a c => 10 * a + pyDigitVal c) 0

/- ===================== Character-list string utilities ===================== -/

/-- Whether a character list starts with the given literal list
(str.startswith).  Defined over character lists so that the kernel can
evaluate it on concrete names. -/
def startsChars : List Char → List Char → Bool
  | [], _ => true
  | _ :: _, [] => false
  | a :: as, b :: bs => a = b && startsChars as bs

/-- Whether a character list ends with the given literal list
(str.endswith on one suffix). -/
def endsWithChars (suf l : List Char) : Bool := startsChars suf.reverse l.reverse

/-- Characterwise lowercasing (str.lower()).  Char.toLower lowers the ASCII
range, which covers the configured extension and folder names the program
compares against. -/
def strLower (s : String) : String := ⟨s.data.map Char.toLower⟩

/- ===================== The compiled filename pattern ===================== -/

/-- Strip an expected literal start from a character list, returning the
remainder.  This models the literal portion re.escape(base_filename) followed
by the underscore at the start of the compiled pattern. -/
def dropStart : List Char → List Char → Option (List Char)
  | [], l => some l
  | _ :: _, [] => none
  | p :: ps, c :: cs => if c = p then dropStart ps cs else none

/-- Model of pattern.match for the compiled Python regular expression
re.compile(s) with s built as caret, re.escape(base_filename), underscore,
a parenthesised group of one or more digits, re.escape(ext), dollar.
Returns the numeric value of the captured digit group on success.

Two points of Python semantics are reflected faithfully:
* the digit group is greedy, so it is the maximal run of digit characters
  after the underscore (backtracking never helps here because the extension
  produced by os.path.splitext is empty or starts with a dot, never with a
  digit); and
* the dollar anchor matches at the end of the string or just before a single
  newline that ends the string, so a filename carrying one trailing newline
  after the extension is also accepted.

The digit class is the full set of Unicode decimal digits (category Nd,
embedded as the run-base table ndBases), which is what a backslash-d class
matches when the pattern is compiled without re.ASCII; int() parses any such
digit run, each digit contributing its decimal digit value. -/
def matchNumL (stem ext fn : List Char) : Option Nat :=
  match dropStart (stem ++ ['_']) fn with
  | none => none
  | some rest =>
    let ds := rest.takeWhile isPyDigit
    let rem := rest.dropWhile isPyDigit
    if ds ≠ [] ∧ (rem = ext ∨ rem = ext ++ ['\n']) then some (digVal ds) else none

/-- String-level wrapper for the filename pattern matcher. -/
def matchNum (stem ext fn : String) : Option Nat := matchNumL stem.data ext.data fn.data

/- ===================== os.path.splitext ===================== -/

/-- Core of os.path.splitext on a basename (a name containing no path
separator): locate the last dot and, when one exists, return the part before
it and the part from it onward.  Returns none when the name has no dot. -/
def splitExtAux : List Char → Option (List Char × List Char)
  | [] => none
  | c :: cs =>
    match splitExtAux cs with
    | some (st, ex) => some (c :: st, ex)
    | none => if c = '.' then some ([], c :: cs) else none

/-- Model of os.path.splitext applied to a basename: split at the last dot,
except that the split is suppressed when every character before that dot is
itself a dot (so a purely leading-dot name such as .bashrc keeps its whole
name as the stem and has an empty extension). -/
def splitextName (basename : String) : String × String :=
  match splitExtAux basename.data with
  | none => (basename, "")
  | some (st, ex) =>
    if st.any (fun c => c ≠ '.') then (⟨st⟩, ⟨ex⟩) else (basename, "")

/- ===================== The output-path resolver ===================== -/

/-- Fold of the source loop over os.listdir: highest_num starts at zero and is
replaced by a matched number whenever that number is strictly greater. -/
def highestNum (stem ext : String) (listing : List String) : Nat :=
  listing.foldl (fun acc fn =>
    match matchNum stem ext fn with
    | some n => if n > acc then n else acc
    | none => acc) 0

/-- Filename part of the resolver result: base_filename, underscore, the
decimal rendering of highest_num + 1, then the extension. -/
def nextNumberedName (basename : String) (listing : List String) : String :=
  let se := splitextName basename
  se.1 ++ "_" ++ natToDec (highestNum se.1 se.2 listing + 1) ++ se.2

/-- Model of os.path.join for the relative filename produced by the resolver
(POSIX separator; an empty directory part yields the bare filename, matching
os.path.join of an empty string). -/
def joinPath (directory f : String) : String :=
  if directory = "" then f
  else if endsWithChars ['/'] directory.data then directory ++ f
  else directory ++ "/" ++ f

/-- Model of get_unique_output_filename.  The base path arrives already split
into its directory part and its basename (os.path.dirname and
os.path.basename), and the content of the scanned directory is passed in as
the listing, abstracting os.listdir of that directory.  The os.makedirs call
only affects the filesystem, never the returned path, so it has no
counterpart here. -/
def get_unique_output_filename (directory basename : String) (listing : List String) : String :=
  joinPath directory (nextNumberedName basename listing)

/- ===================== Specification-side match predicates ===================== -/

/-- Numbered-filename predicate at the list-of-characters level: the name is
the literal stem, an underscore, a non-empty run of Unicode decimal digits of
value k, and the literal extension, optionally followed by one trailing
newline (the form the dollar anchor also accepts). -/
def NumberedMatchL (stem ext : List Char) (k : Nat) (fn : List Char) : Prop :=
  ∃ ds : List Char, ds ≠ [] ∧ (∀ c ∈ ds, isPyDigit c = true) ∧ digVal ds = k ∧
    (fn = stem ++ '_' :: (ds ++ ext) ∨ fn = stem ++ '_' :: (ds ++ ext ++ ['\n']))

/-- String-level numbered-filename predicate (with the trailing-newline
variant). -/
def NumberedMatch (stem ext : String) (k : Nat) (fn : String) : Prop :=
  NumberedMatchL stem.data ext.data k fn.data

/-- Exact numbered-filename predicate, as the specification words it: the
name is exactly the literal stem, an underscore, one or more Unicode decimal
digits of value k, and the literal extension, with no extra characters before
or after. -/
def ExactNumberedMatch (stem ext : String) (k : Nat) (fn : String) : Prop :=
  ∃ ds : List Char, ds ≠ [] ∧ (∀ c ∈ ds, isPyDigit c = true) ∧ digVal ds = k ∧
    fn.data = stem.data ++ '_' :: (ds ++ ext.data)

/- ===================== Collector configuration ===================== -/

/-- The tuple ALLOWED_EXTENSIONS from the source. -/
def ALLOWED_EXTENSIONS : List String := [".cs", ".xaml", ".csproj", ".sln", ".json"]

/-- The tuple EXCLUDED_FOLDERS from the source. -/
def EXCLUDED_FOLDERS : List String := ["bin", "obj"]

/-- File filter from the source loop: filename.lower().endswith(ALLOWED_EXTENSIONS),
where endswith applied to a tuple succeeds when any member matches. -/
def allowedFile (f : String) : Bool :=
  ALLOWED_EXTENSIONS.any (fun e => endsWithChars e.data (strLower f).data)

/-- Directory filter from the pruning comprehension over dirs:
d.lower() not in EXCLUDED_FOLDERS and not d.startswith('.'). -/
def keepDir (d : String) : Bool :=
  !(decide (strLower d ∈ EXCLUDED_FOLDERS)) && !(startsChars ['.'] d.data)

/-- Lexicographic comparison of character lists by code point, the order
Python uses to compare strings. -/
def charListLe : List Char → List Char → Bool
  | [], _ => true
  | _ :: _, [] => false
  | a :: as, b :: bs =>
    if a.toNat < b.toNat then true
    else if b.toNat < a.toNat then false
    else charListLe as bs

/-- Lexicographic string comparison by code point. -/
def strLe (a b : String) : Bool := charListLe a.data b.data

/-- Insert a string into a list that is already sorted under strLe, keeping
it sorted. -/
def insertSorted (a : String) : List String → List String
  | [] => [a]
  | b :: t => if strLe a b then a :: b :: t else b :: insertSorted a t

/-- Sorting applied by files.sort(): Python list sort orders strings by the
lexicographic comparison of their code points.  Strings compare under a
total order and equal names are identical strings, so the sorted
arrangement of a list of names is unique and any comparison sort computes
it; the model uses insertion sort, which the kernel can evaluate. -/
def sortStrings : List String → List String
  | [] => []
  | a :: t => insertSorted a (sortStrings t)

/- ===================== The directory tree ===================== -/

/- A directory of the input tree: the filenames found directly in it (in
the order the operating system would list them) and its subdirectories, each
with its name.  The two types are mutual so that every function and proof
below is by plain structural recursion. -/
mutual
inductive Dir where
  | mk (files : List String) (subdirs : DirList)
  deriving DecidableEq
inductive DirList where
  | nil
  | cons (name : String) (sub : Dir) (rest : DirList)
  deriving DecidableEq
end

/-- Relative path (POSIX separator) of a file reached through the listed
chain of directory names, as os.path.relpath(os.path.join(root, filename),
input_dir) produces it. -/
def relPathOf (ds : List String) (f : String) : String :=
  ds.foldr (fun d acc => d ++ "/" ++ acc) f

/- ===================== The walk ===================== -/

/- Relative paths of the files the collector emits, in emission order.
Models the os.walk loop of collect_source_files: for every visited directory
the file list is sorted, filtered by allowedFile and emitted first; then the
walk descends, in listing order, into exactly those subdirectories that
survive the pruning comprehension (the in-place assignment dirs[:] = [...]),
so a pruned subdirectory and everything below it is skipped. -/
mutual
def walkDir (rel : String) : Dir → List String
  | .mk fs sds =>
    ((sortStrings fs).filter allowedFile).map (fun f => rel ++ f) ++ walkSubdirs rel sds
def walkSubdirs (rel : String) : DirList → List String
  | .nil => []
  | .cons d sub rest =>
    (if keepDir d then walkDir (rel ++ d ++ "/") sub else []) ++ walkSubdirs rel rest
end

/- ===================== Block formatting ===================== -/

/-- A run of n dash characters, as the Python expression '-' * n. -/
def dashes (n : Nat) : String := ⟨List.replicate n '-'⟩

/-- First banner line written for a file: twenty dashes, the literal
" File: ", the relative path, a space, twenty dashes, then a newline. -/
def firstBannerLine (rp : String) : String :=
  dashes 20 ++ " File: " ++ rp ++ " " ++ dashes 20 ++ "\n"

/-- Second banner line: 48 + len(rel_path) dashes followed by two newlines. -/
def secondBannerLine (rp : String) : String :=
  dashes (48 + rp.length) ++ "\n\n"

/-- Body written for a file: its decoded content on success, and on any
read or decode failure the single line "Error reading file: " followed by
the textual description of the exception, instead of raising. -/
def readBody (read : String → Except String String) (rp : String) : String :=
  match read rp with
  | Except.ok s => s
  | Except.error e => "Error reading file: " ++ e ++ "\n"

/-- Everything written for one emitted file: the blank-line separator, the
two banner lines, then the body. -/
def fileBlock (read : String → Except String String) (rp : String) : String :=
  "\n\n" ++ firstBannerLine rp ++ secondBannerLine rp ++ readBody read rp

/-- Concatenation of a list of written strings, in order (the sequence of
outfile.write calls). -/
def writeAll (l : List String) : String := l.foldr (fun a b => a ++ b) ""

/-- Full text of the output file produced by the collector walk.  The read
argument abstracts opening, reading and decoding the file at the given
path relative to the input root (the source opens input_dir joined with the
relative path; input_dir is fixed for the whole run, so the relative path
determines the file). -/
def collectOutput (read : String → Except String String) (d : Dir) : String :=
  writeAll ((walkDir "" d).map (fileBlock read))

/- ===================== The whole run and the entry point ===================== -/

/-- Observable result of one collect_source_files run: the resolved output
path (the file created and written, creation truncates nothing because the
resolved name is fresh), the text written into it, and the line printed on
completion. -/
structure RunResult where
  outputName : String
  content : String
  message : String
  deriving DecidableEq

/-- Model of collect_source_files: resolve the numbered output path from the
output directory's listing, then write the collected text into that file and
print the completion message.  The output file is created unconditionally,
before the walk, so it exists (possibly empty) even when nothing is
collected. -/
def collect_source_files (directory basename : String) (listing : List String)
    (read : String → Except String String) (tree : Dir) : RunResult :=
  let out := get_unique_output_filename directory basename listing
  ⟨out, collectOutput read tree, "Done. Output written to " ++ out⟩

/-- Usage line printed on a wrong argument count. -/
def usageLine : String := "Usage: python cs_dump.py <input_folder> <output_file>"

/-- Example line printed on a wrong argument count. -/
def exampleLine : String := "Example: python cs_dump.py C:\\Projects\\MyWpfApp C:\\Dumps\\output.txt"

/-- Outcome of the command-line entry point: what was printed and how the
process ended before (or instead of) running the collector. -/
inductive MainOutcome where
  | usage (printed : List String) (exitCode : Nat)
  | badInput (printed : List String) (exitCode : Nat)
  | ran (inputFolder outputFile : String) (exitCode : Nat)
  deriving DecidableEq

/-- Model of the __main__ block: sys.argv holds the program name followed by
the positional arguments, so the source test len(sys.argv) != 3 is the
wrong-argument-count branch; it prints the usage and example lines and falls
off the end of the script (implicit exit status zero).  With exactly two
positional arguments, a non-directory input prints the error line and exits
with status one; otherwise the collector runs (exit status zero on normal
completion).  The isDir argument abstracts os.path.isdir. -/
def mainOutcome (argv : List String) (isDir : String → Bool) : MainOutcome :=
  match argv with
  | [_prog, inputFolder, outputFile] =>
    if isDir inputFolder then MainOutcome.ran inputFolder outputFile 0
    else MainOutcome.badInput ["Error: Input folder '" ++ inputFolder ++ "' not found."] 1
  | _ => MainOutcome.usage [usageLine, exampleLine] 0

/- ===================== Helper lemmas: digits ===================== -/

lemma digitChar_isPyDigit (n : Nat) (h : n < 10) : isPyDigit (digitChar n) = true := by
  interval_cases n <;> decide

lemma digitChar_val (n : Nat) (h : n < 10) : pyDigitVal (digitChar n) = n := by
  interval_cases n <;> decide

lemma digVal_append_singleton (ds : List Char) (c : Char) :
    digVal (ds ++ [c]) = 10 * digVal ds + pyDigitVal c := by
  simp [digVal, List.foldl_append]

lemma decDigitsAux_spec : ∀ f n, n < f →
    decDigitsAux f n ≠ [] ∧ (∀ c ∈ decDigitsAux f n, isPyDigit c = true) ∧
      digVal (decDigitsAux f n) = n := by
  intro f
  induction f with
  | zero => intro n h; omega
  | succ f ih =>
    intro n h
    by_cases hn : n < 10
    · refine ⟨by simp [decDigitsAux, hn], ?_, ?_⟩
      · intro c hc
        simp [decDigitsAux, hn] at hc
        subst hc
        exact digitChar_isPyDigit n hn
      · simp [decDigitsAux, hn, digVal, digitChar_val n hn]
    · have h10 : 10 ≤ n := by omega
      have hlt : n / 10 < f := by
        have h1 : n / 10 < n := Nat.div_lt_self (by omega) (by omega)
        omega
      obtain ⟨h1, h2, h3⟩ := ih (n / 10) hlt
      refine ⟨by simp [decDigitsAux, hn], ?_, ?_⟩
      · intro c hc
        simp only [decDigitsAux, if_neg hn, List.mem_append, List.mem_singleton] at hc
        rcases hc with hc | hc
        · exact h2 c hc
        · subst hc
          exact digitChar_isPyDigit (n % 10) (Nat.mod_lt n (by omega))
      · have hmod : pyDigitVal (digitChar (n % 10)) = n % 10 :=
          digitChar_val (n % 10) (Nat.mod_lt n (by omega))
        simp only [decDigitsAux, if_neg hn, digVal_append_singleton, h3, hmod]
        omega

lemma natToDec_data (n : Nat) : (natToDec n).data = decDigitsAux (n + 1) n := rfl

/- ===================== Helper lemmas: lists ===================== -/

lemma dropStart_eq_some : ∀ (p l r : List Char), dropStart p l = some r ↔ l = p ++ r := by
  intro p
  induction p with
  | nil => intro l r; simp [dropStart]
  | cons a ps ih =>
    intro l r
    cases l with
    | nil => simp [dropStart]
    | cons c cs =>
      by_cases hc : c = a
      · subst hc
        simp [dropStart, ih]
      · simp [dropStart, hc]

lemma takeWhile_append_of_all {p : Char → Bool} :
    ∀ (ds r : List Char), (∀ c ∈ ds, p c = true) →
      (ds ++ r).takeWhile p = ds ++ r.takeWhile p := by
  intro ds
  induction ds with
  | nil => simp
  | cons a t ih =>
    intro r h
    have ha : p a = true := h a (by simp)
    simp [List.takeWhile_cons, ha]
    exact ih r (fun c hc => h c (by simp [hc]))

lemma dropWhile_append_of_all {p : Char → Bool} :
    ∀ (ds r : List Char), (∀ c ∈ ds, p c = true) →
      (ds ++ r).dropWhile p = r.dropWhile p := by
  intro ds
  induction ds with
  | nil => simp
  | cons a t ih =>
    intro r h
    have ha : p a = true := h a (by simp)
    simp [List.dropWhile_cons, ha]
    exact ih r (fun c hc => h c (by simp [hc]))

lemma takeWhile_eq_nil_of_head {p : Char → Bool} (r : List Char)
    (h : ∀ c, r.head? = some c → p c = false) : r.takeWhile p = [] := by
  cases r with
  | nil => rfl
  | cons a t => simp [List.takeWhile_cons, h a rfl]

lemma dropWhile_eq_self_of_head {p : Char → Bool} (r : List Char)
    (h : ∀ c, r.head? = some c → p c = false) : r.dropWhile p = r := by
  cases r with
  | nil => rfl
  | cons a t => simp [List.dropWhile_cons, h a rfl]

/- ===================== Helper lemmas: the pattern matcher ===================== -/

lemma cons_append_eq (stem t : List Char) :
    stem ++ '_' :: t = (stem ++ ['_']) ++ t := by
  simp

/-- The head of the remainder that follows the digit group is never a digit
when the extension is empty or starts with a non-digit, in both variants the
dollar anchor accepts. -/
lemma head_not_digit_variants (ext : List Char)
    (hext : ∀ c, ext.head? = some c → isPyDigit c = false) :
    (∀ c, (ext ++ ['\n']).head? = some c → isPyDigit c = false) := by
  intro c hc
  cases ext with
  | nil =>
    simp at hc
    subst hc
    decide
  | cons a t =>
    simp at hc
    subst hc
    exact hext a rfl

/-- Characterization of pattern.match: the matcher returns the value k
exactly on the filenames described by the numbered-filename predicate,
provided the extension does not start with a digit (true of every extension
os.path.splitext yields). -/
lemma matchNumL_eq_some_iff (stem ext fn : List Char) (k : Nat)
    (hext : ∀ c, ext.head? = some c → isPyDigit c = false) :
    matchNumL stem ext fn = some k ↔ NumberedMatchL stem ext k fn := by
  cases hds : dropStart (stem ++ ['_']) fn with
  | none =>
    simp only [matchNumL, hds]
    constructor
    · intro h
      exact absurd h (by simp)
    · rintro ⟨ds, hne, hdig, hval, hfn | hfn⟩
      · have h2 : dropStart (stem ++ ['_']) fn = some (ds ++ ext) :=
          (dropStart_eq_some _ _ _).mpr (by rw [hfn, cons_append_eq])
        rw [h2] at hds
        exact absurd hds (by simp)
      · have h2 : dropStart (stem ++ ['_']) fn = some (ds ++ ext ++ ['\n']) :=
          (dropStart_eq_some _ _ _).mpr (by rw [hfn, cons_append_eq])
        rw [h2] at hds
        exact absurd hds (by simp)
  | some rest =>
    have hfn0 : fn = (stem ++ ['_']) ++ rest := (dropStart_eq_some _ _ _).mp hds
    simp only [matchNumL, hds]
    constructor
    · intro h
      by_cases hcond : rest.takeWhile isPyDigit ≠ [] ∧
          (rest.dropWhile isPyDigit = ext ∨ rest.dropWhile isPyDigit = ext ++ ['\n'])
      · rw [if_pos hcond] at h
        obtain ⟨hne, hrem⟩ := hcond
        refine ⟨rest.takeWhile isPyDigit, hne, ?_, by simpa using h, ?_⟩
        · intro c hc
          exact List.mem_takeWhile_imp hc
        · rcases hrem with hrem | hrem
          · left
            have hr : rest = List.takeWhile isPyDigit rest ++ ext := by
              conv_lhs => rw [← List.takeWhile_append_dropWhile isPyDigit rest]
              rw [hrem]
            rw [hfn0, ← hr]
            simp
          · right
            have hr : rest = (List.takeWhile isPyDigit rest ++ ext) ++ ['\n'] := by
              conv_lhs => rw [← List.takeWhile_append_dropWhile isPyDigit rest]
              rw [hrem]
              exact (List.append_assoc _ _ _).symm
            rw [hfn0, ← hr]
            simp
      · rw [if_neg hcond] at h
        exact absurd h (by simp)
    · rintro ⟨ds, hne, hdig, hval, hfn⟩
      have hrest : rest = ds ++ ext ∨ rest = ds ++ (ext ++ ['\n']) := by
        rcases hfn with hfn | hfn
        · left
          have hcat : (stem ++ ['_']) ++ rest = (stem ++ ['_']) ++ (ds ++ ext) := by
            rw [← hfn0, hfn, cons_append_eq]
          exact List.append_cancel_left hcat
        · right
          have hcat : (stem ++ ['_']) ++ rest = (stem ++ ['_']) ++ (ds ++ (ext ++ ['\n'])) := by
            rw [← hfn0, hfn, cons_append_eq]
            simp
          exact List.append_cancel_left hcat
      have htail : ∀ tl : List Char, (∀ c, tl.head? = some c → isPyDigit c = false) →
          rest = ds ++ tl →
          (rest.takeWhile isPyDigit = ds ∧ rest.dropWhile isPyDigit = tl) := by
        intro tl htl hr
        subst hr
        constructor
        · rw [takeWhile_append_of_all ds tl hdig, takeWhile_eq_nil_of_head tl htl,
            List.append_nil]
        · rw [dropWhile_append_of_all ds tl hdig, dropWhile_eq_self_of_head tl htl]
      rcases hrest with hr | hr
      · obtain ⟨ht, hd⟩ := htail ext hext hr
        rw [if_pos ⟨by rw [ht]; exact hne, by rw [hd]; left; rfl⟩, ht, hval]
      · obtain ⟨ht, hd⟩ := htail (ext ++ ['\n']) (head_not_digit_variants ext hext) hr
        rw [if_pos ⟨by rw [ht]; exact hne, by rw [hd]; right; rfl⟩, ht, hval]

/- ===================== Helper lemmas: splitext ===================== -/

lemma splitExtAux_shape : ∀ cs st ex, splitExtAux cs = some (st, ex) →
    cs = st ++ ex ∧ ∃ t, ex = '.' :: t := by
  intro cs
  induction cs with
  | nil => intro st ex h; exact absurd h (by simp [splitExtAux])
  | cons c cs ih =>
    intro st ex h
    simp only [splitExtAux] at h
    cases hrec : splitExtAux cs with
    | some p =>
      rw [hrec] at h
      obtain ⟨st0, ex0⟩ := p
      simp at h
      obtain ⟨hst, hex⟩ := h
      obtain ⟨hcs, t, ht⟩ := ih st0 ex0 hrec
      subst hst
      subst hex
      exact ⟨by rw [hcs]; simp, t, ht⟩
    | none =>
      rw [hrec] at h
      by_cases hc : c = '.'
      · simp [hc] at h
        obtain ⟨hst, hex⟩ := h
        subst hc
        subst hex
        subst hst
        exact ⟨by simp, cs, rfl⟩
      · simp [hc] at h

/-- The extension part produced by the splitext model is empty or starts with
a dot, hence never starts with a digit. -/
lemma splitextName_ext_head (b : String) :
    ∀ c, (splitextName b).2.data.head? = some c → isPyDigit c = false := by
  intro c hc
  unfold splitextName at hc
  cases hse : splitExtAux b.data with
  | none => rw [hse] at hc; simp at hc
  | some p =>
    obtain ⟨st, ex⟩ := p
    rw [hse] at hc
    by_cases hany : st.any (fun c => c ≠ '.')
    · simp only [hany, if_pos] at hc
      obtain ⟨-, t, ht⟩ := splitExtAux_shape b.data st ex hse
      subst ht
      simp at hc
      subst hc
      decide
    · simp only [hany] at hc
      simp at hc

/- ===================== Helper lemmas: the fold over the listing ===================== -/

/-- Matched value of one filename, zero when the pattern does not match. -/
def mval (stem ext fn : String) : Nat := (matchNum stem ext fn).getD 0

lemma step_eq_max (stem ext : String) (acc : Nat) (fn : String) :
    (match matchNum stem ext fn with
      | some n => if n > acc then n else acc
      | none => acc) = max acc (mval stem ext fn) := by
  unfold mval
  cases matchNum stem ext fn with
  | none => simp
  | some n =>
    simp only [Option.getD_some, gt_iff_lt]
    rcases Nat.lt_or_ge acc n with h | h
    · rw [if_pos h, Nat.max_eq_right (Nat.le_of_lt h)]
    · rw [if_neg (by omega), Nat.max_eq_left h]

lemma foldl_step_acc (stem ext : String) :
    ∀ (L : List String) (acc : Nat),
      L.foldl (fun acc fn => match matchNum stem ext fn with
        | some n => if n > acc then n else acc
        | none => acc) acc
      = max acc (L.foldl (fun acc fn => match matchNum stem ext fn with
          | some n => if n > acc then n else acc
          | none => acc) 0) := by
  intro L
  induction L with
  | nil => intro acc; simp
  | cons fn L ih =>
    intro acc
    simp only [List.foldl_cons]
    rw [step_eq_max, step_eq_max, ih (max 0 (mval stem ext fn)),
      ih (max acc (mval stem ext fn)), Nat.zero_max, Nat.max_assoc]

lemma highestNum_cons (stem ext fn : String) (L : List String) :
    highestNum stem ext (fn :: L) = max (mval stem ext fn) (highestNum stem ext L) := by
  unfold highestNum
  simp only [List.foldl_cons]
  rw [step_eq_max, foldl_step_acc, Nat.zero_max]

lemma le_highestNum_of_mem {stem ext fn : String} {L : List String} {k : Nat}
    (hmem : fn ∈ L) (hk : matchNum stem ext fn = some k) :
    k ≤ highestNum stem ext L := by
  induction L with
  | nil => simp at hmem
  | cons g L ih =>
    rw [highestNum_cons]
    rcases List.mem_cons.mp hmem with h | h
    · subst h
      have hv : mval stem ext fn = k := by simp [mval, hk]
      rw [← hv]
      exact Nat.le_max_left _ _
    · exact le_trans (ih h) (Nat.le_max_right _ _)

lemma matchNum_eq_some_mval {stem ext fn : String} (h : mval stem ext fn ≠ 0) :
    matchNum stem ext fn = some (mval stem ext fn) := by
  unfold mval at h ⊢
  cases hm : matchNum stem ext fn with
  | none => rw [hm] at h; simp at h
  | some n => simp

lemma highestNum_achieved (stem ext : String) :
    ∀ L : List String, highestNum stem ext L = 0 ∨
      ∃ fn ∈ L, matchNum stem ext fn = some (highestNum stem ext L) := by
  intro L
  induction L with
  | nil => left; rfl
  | cons fn L ih =>
    rw [highestNum_cons]
    rcases Nat.le_total (mval stem ext fn) (highestNum stem ext L) with hle | hle
    · rw [Nat.max_eq_right hle]
      rcases ih with h0 | hach
      · left; exact h0
      · right
        obtain ⟨g, hg, hmg⟩ := hach
        exact ⟨g, List.mem_cons_of_mem _ hg, hmg⟩
    · rw [Nat.max_eq_left hle]
      rcases Nat.eq_zero_or_pos (mval stem ext fn) with hv | hv
      · left; exact hv
      · right
        exact ⟨fn, List.mem_cons_self _ _, matchNum_eq_some_mval (by omega)⟩

/- ===================== Helper lemmas: the resolver result ===================== -/

/-- The filename the resolver constructs matches its own pattern, with the
freshly incremented number as its value. -/
lemma matchNum_roundtrip (stem ext : String) (n : Nat)
    (hext : ∀ c, ext.data.head? = some c → isPyDigit c = false) :
    matchNum stem ext (stem ++ "_" ++ natToDec n ++ ext) = some n := by
  obtain ⟨hne, hdig, hval⟩ := decDigitsAux_spec (n + 1) n (by omega)
  unfold matchNum
  rw [matchNumL_eq_some_iff _ _ _ _ hext]
  refine ⟨decDigitsAux (n + 1) n, hne, hdig, hval, Or.inl ?_⟩
  have hu : ("_" : String).data = ['_'] := rfl
  simp [String.data_append, natToDec_data, hu]

lemma nextNumberedName_matches (basename : String) (L : List String) :
    matchNum (splitextName basename).1 (splitextName basename).2 (nextNumberedName basename L)
      = some (highestNum (splitextName basename).1 (splitextName basename).2 L + 1) := by
  unfold nextNumberedName
  exact matchNum_roundtrip _ _ _ (splitextName_ext_head basename)

/-- The resolver's filename is never one of the names already listed in the
output directory. -/
lemma nextNumberedName_not_mem (basename : String) (L : List String) :
    nextNumberedName basename L ∉ L := by
  intro hmem
  have h := le_highestNum_of_mem hmem (nextNumberedName_matches basename L)
  omega

lemma highestNum_after_insert (basename : String) (L : List String) :
    highestNum (splitextName basename).1 (splitextName basename).2
        (nextNumberedName basename L :: L)
      = highestNum (splitextName basename).1 (splitextName basename).2 L + 1 := by
  rw [highestNum_cons]
  have hv : mval (splitextName basename).1 (splitextName basename).2
      (nextNumberedName basename L)
      = highestNum (splitextName basename).1 (splitextName basename).2 L + 1 := by
    simp [mval, nextNumberedName_matches basename L]
  rw [hv]
  omega

/-- An exactly numbered filename ends with the last character of the
extension. -/
lemma exact_match_getLast {stem ext : String} {k : Nat} {fn : String}
    (hex : ext.data ≠ []) (h : ExactNumberedMatch stem ext k fn) :
    fn.data.getLast? = ext.data.getLast? := by
  obtain ⟨ds, hne, hdig, hval, hfn⟩ := h
  rw [hfn, show stem.data ++ '_' :: (ds ++ ext.data)
    = (stem.data ++ '_' :: ds) ++ ext.data by simp]
  exact List.getLast?_append_of_ne_nil _ hex

/- ===================== Claims C1, C3, C5 ===================== -/

/-- Claim C1, counterexample to the claim as stated.  With only the file
"output_3.ext" followed by a trailing newline character present in the
directory (a legal filename on POSIX filesystems), no file named exactly
stem_K.ext exists for any K, so the claim demands suffix 1; but the dollar
anchor of the compiled pattern also matches just before a trailing newline,
so the resolver counts that file and returns suffix 4. -/
theorem C1_counterexample :
    nextNumberedName "output.ext" ["output_3.ext\n"] = "output_4.ext"
    ∧ (∀ k : Nat, ¬ ExactNumberedMatch "output" ".ext" k "output_3.ext\n")
    ∧ "output_4.ext" ≠ "output_1.ext" := by
  refine ⟨by decide, ?_, by decide⟩
  intro k h
  exact absurd (exact_match_getLast (by decide) h) (by decide)

/-- Claim C1 (amended): for every base path split into directory, stem and
extension, the resolver returns directory/stem_N.ext where N is one greater
than the maximum value K over files in the directory named stem_D.ext for a
non-empty run D of Unicode decimal digits of value K, the name optionally
carrying one trailing newline character (accepted by the pattern's end
anchor); when no such file exists, N = 1 (the highest tracked value is 0
exactly in that case, by the last two conjuncts). -/
theorem C1_resolver_next_suffix (directory basename : String) (L : List String) :
    get_unique_output_filename directory basename L
      = joinPath directory ((splitextName basename).1 ++ "_"
          ++ natToDec (highestNum (splitextName basename).1 (splitextName basename).2 L + 1)
          ++ (splitextName basename).2)
    ∧ (∀ fn ∈ L, ∀ k, NumberedMatch (splitextName basename).1 (splitextName basename).2 k fn →
        k ≤ highestNum (splitextName basename).1 (splitextName basename).2 L)
    ∧ (highestNum (splitextName basename).1 (splitextName basename).2 L = 0
        ∨ ∃ fn ∈ L, NumberedMatch (splitextName basename).1 (splitextName basename).2
            (highestNum (splitextName basename).1 (splitextName basename).2 L) fn) := by
  refine ⟨rfl, ?_, ?_⟩
  · intro fn hfn k hk
    exact le_highestNum_of_mem hfn
      ((matchNumL_eq_some_iff _ _ _ _ (splitextName_ext_head basename)).mpr hk)
  · rcases highestNum_achieved (splitextName basename).1 (splitextName basename).2 L
      with h0 | hach
    · left; exact h0
    · right
      obtain ⟨fn, hfn, hm⟩ := hach
      exact ⟨fn, hfn,
        (matchNumL_eq_some_iff _ _ _ _ (splitextName_ext_head basename)).mp hm⟩

/-- Claim C1, witness: with output_1.ext and output_3.ext present the
resolver returns output_4.ext and file output_3.ext (digit string "3")
bounds the tracked maximum from below; likewise with the single file named
with the Arabic-Indic digit three, which the pattern's digit class also
matches, the resolver returns output_4.ext and that file bounds the maximum
by 3. -/
theorem C1_resolver_next_suffix_witness :
    (nextNumberedName "output.ext" ["output_1.ext", "output_3.ext"] = "output_4.ext"
      ∧ 3 ≤ highestNum "output" ".ext" ["output_1.ext", "output_3.ext"])
    ∧ (nextNumberedName "output.ext" ["output_٣.ext"] = "output_4.ext"
      ∧ 3 ≤ highestNum "output" ".ext" ["output_٣.ext"]) := by
  constructor
  · constructor
    · decide
    · exact (C1_resolver_next_suffix "" "output.ext" ["output_1.ext", "output_3.ext"]).2.1
        "output_3.ext" (by decide) 3
        ⟨['3'], by decide, by decide, by decide, Or.inl (by decide)⟩
  · constructor
    · decide
    · exact (C1_resolver_next_suffix "" "output.ext" ["output_٣.ext"]).2.1
        "output_٣.ext" (by decide) 3
        ⟨['٣'], by decide, by decide, by decide, Or.inl (by decide)⟩

/-- Claim C3: the resolver's filename never names an existing file of the
scanned directory; in particular a second run, whose directory listing now
also carries the first run's output, returns a different name, and starting
from a directory with no matching file the two runs yield suffixes 1 and 2. -/
theorem C3_resolver_never_collides (directory basename : String) (L : List String) :
    get_unique_output_filename directory basename L
      = joinPath directory (nextNumberedName basename L)
    ∧ nextNumberedName basename L ∉ L
    ∧ nextNumberedName basename (nextNumberedName basename L :: L) ≠ nextNumberedName basename L
    ∧ (highestNum (splitextName basename).1 (splitextName basename).2 L = 0 →
        nextNumberedName basename L
          = (splitextName basename).1 ++ "_" ++ "1" ++ (splitextName basename).2
        ∧ nextNumberedName basename (nextNumberedName basename L :: L)
          = (splitextName basename).1 ++ "_" ++ "2" ++ (splitextName basename).2) := by
  refine ⟨rfl, nextNumberedName_not_mem basename L, ?_, ?_⟩
  · intro heq
    have h := nextNumberedName_not_mem basename (nextNumberedName basename L :: L)
    rw [heq] at h
    exact h (List.mem_cons_self _ _)
  · intro h0
    have hdef : ∀ L' : List String, nextNumberedName basename L'
        = (splitextName basename).1 ++ "_"
          ++ natToDec (highestNum (splitextName basename).1 (splitextName basename).2 L' + 1)
          ++ (splitextName basename).2 := fun _ => rfl
    constructor
    · rw [hdef L, h0]
      have h1 : natToDec (0 + 1) = "1" := by decide
      rw [h1]
    · have hins := highestNum_after_insert basename L
      rw [h0] at hins
      rw [hdef (nextNumberedName basename L :: L), hins]
      have h2 : natToDec (0 + 1 + 1) = "2" := by decide
      rw [h2]

/-- Claim C3, witness: a concrete double run starting from a directory with
one unrelated file yields suffixes 1 and 2; and in a directory holding a
file numbered with the Arabic-Indic digit three, which the pattern counts,
the resolved name still collides with nothing (it advances to suffix 4). -/
theorem C3_resolver_never_collides_witness :
    (nextNumberedName "output.txt" ["notes.md"] = "output_1.txt"
      ∧ nextNumberedName "output.txt"
          (nextNumberedName "output.txt" ["notes.md"] :: ["notes.md"]) = "output_2.txt")
    ∧ nextNumberedName "output.txt" ["output_٣.txt"] ∉ ["output_٣.txt"]
    ∧ nextNumberedName "output.txt" ["output_٣.txt"] = "output_4.txt" := by
  have h := (C3_resolver_never_collides "" "output.txt" ["notes.md"]).2.2.2 (by decide)
  exact ⟨⟨h.1.trans (by decide), h.2.trans (by decide)⟩,
    (C3_resolver_never_collides "" "output.txt" ["output_٣.txt"]).2.1, by decide⟩

/-- Claim C5, counterexample to the claim as stated.  The filename
"output_1.ext" followed by a trailing newline character is not of the exact
form stem_digits.ext for any value, yet it raises the tracked maximum to 1
and therefore changes the resolver's result from output_1.ext to
output_2.ext: a name with an extra character after the extension influences
the computed suffix. -/
theorem C5_counterexample :
    highestNum "output" ".ext" ["output_1.ext\n"] = 1
    ∧ nextNumberedName "output.ext" ["output_1.ext\n"] = "output_2.ext"
    ∧ nextNumberedName "output.ext" [] = "output_1.ext"
    ∧ (∀ k : Nat, ¬ ExactNumberedMatch "output" ".ext" k "output_1.ext\n") := by
  refine ⟨by decide, by decide, by decide, ?_⟩
  intro k h
  exact absurd (exact_match_getLast (by decide) h) (by decide)

/-- Claim C5 (amended): a filename is accepted by the resolver's pattern
with value k exactly when it is the literal stem, an underscore, one or more
Unicode decimal digits of value k, and the literal extension, with nothing
else except an optional single trailing newline; and a filename the pattern
does not accept never influences the computed suffix. -/
theorem C5_matcher_influence (basename fn : String) (k : Nat) (L : List String) :
    (matchNum (splitextName basename).1 (splitextName basename).2 fn = some k
      ↔ NumberedMatch (splitextName basename).1 (splitextName basename).2 k fn)
    ∧ (matchNum (splitextName basename).1 (splitextName basename).2 fn = none →
        highestNum (splitextName basename).1 (splitextName basename).2 (fn :: L)
          = highestNum (splitextName basename).1 (splitextName basename).2 L) := by
  constructor
  · exact matchNumL_eq_some_iff _ _ _ _ (splitextName_ext_head basename)
  · intro hnone
    rw [highestNum_cons]
    have hv : mval (splitextName basename).1 (splitextName basename).2 fn = 0 := by
      simp [mval, hnone]
    rw [hv, Nat.zero_max]

/-- Claim C5, witness: output_1x.ext is rejected by the pattern and leaves
the tracked maximum of the rest of the listing unchanged, while the name
carrying the Arabic-Indic digit three is accepted with value 3, so it is of
the amended claim's numbered shape. -/
theorem C5_matcher_influence_witness :
    highestNum "output" ".ext" ["output_1x.ext", "output_2.ext"]
      = highestNum "output" ".ext" ["output_2.ext"]
    ∧ NumberedMatch "output" ".ext" 3 "output_٣.ext" := by
  exact ⟨(C5_matcher_influence "output.ext" "output_1x.ext" 0 ["output_2.ext"]).2 (by decide),
    (C5_matcher_influence "output.ext" "output_٣.ext" 3 []).1.mp (by decide)⟩

/- ===================== Helper lemmas: strings and writes ===================== -/

lemma empty_str_append (s : String) : "" ++ s = s := by
  apply String.ext
  rw [String.data_append]
  rfl

lemma writeAll_cons (a : String) (l : List String) :
    writeAll (a :: l) = a ++ writeAll l := rfl

lemma writeAll_append (l1 l2 : List String) :
    writeAll (l1 ++ l2) = writeAll l1 ++ writeAll l2 := by
  induction l1 with
  | nil => exact (empty_str_append _).symm
  | cons a t ih => rw [List.cons_append, writeAll_cons, writeAll_cons, ih, String.append_assoc]

lemma dashes_length (n : Nat) : (dashes n).length = n := by
  simp [dashes, String.length]

/- ===================== Claims C4, C6, C9 ===================== -/

/-- Claim C4: every emitted file is preceded by the blank-line separator, a
first banner line of twenty dashes, the literal " File: ", the relative
path, a space, twenty dashes and a newline, and a second banner line of
exactly 48 + len(relative_path) dashes followed by two newlines; the whole
output is the concatenation of such blocks in walk order. -/
theorem C4_block_format (read : String → Except String String) (d : Dir) (rp : String) :
    collectOutput read d = writeAll ((walkDir "" d).map (fileBlock read))
    ∧ fileBlock read rp
        = "\n\n" ++ (dashes 20 ++ " File: " ++ rp ++ " " ++ dashes 20 ++ "\n")
          ++ (dashes (48 + rp.length) ++ "\n\n") ++ readBody read rp
    ∧ (dashes 20 ++ " File: " ++ rp ++ " " ++ dashes 20).length = 48 + rp.length
    ∧ (dashes (48 + rp.length)).length = 48 + rp.length
    ∧ (dashes (48 + rp.length)).data = List.replicate (48 + rp.length) '-' := by
  refine ⟨rfl, ?_, ?_, dashes_length _, rfl⟩
  · rw [fileBlock, firstBannerLine, secondBannerLine]
  · have h7 : (" File: " : String).length = 7 := rfl
    have h1 : (" " : String).length = 1 := rfl
    simp [String.length_append, dashes_length, h7, h1]
    omega

/-- Claim C6: a qualifying file whose read or decode fails still gets its
separator and both banner lines, its body is the single error line, and
every other block of the run -- the ones before it and the ones after it --
is exactly what a run without the failure produces. -/
theorem C6_read_error_isolated (read1 read2 : String → Except String String)
    (d : Dir) (rp e s : String) (l1 l2 : List String)
    (hsplit : walkDir "" d = l1 ++ rp :: l2)
    (h1 : read1 rp = Except.error e) (h2 : read2 rp = Except.ok s)
    (hagree : ∀ q, q ≠ rp → read1 q = read2 q)
    (hno1 : rp ∉ l1) (hno2 : rp ∉ l2) :
    collectOutput read1 d
      = writeAll (l1.map (fileBlock read2))
        ++ ("\n\n" ++ firstBannerLine rp ++ secondBannerLine rp
            ++ ("Error reading file: " ++ e ++ "\n"))
        ++ writeAll (l2.map (fileBlock read2))
    ∧ collectOutput read2 d
      = writeAll (l1.map (fileBlock read2))
        ++ ("\n\n" ++ firstBannerLine rp ++ secondBannerLine rp ++ s)
        ++ writeAll (l2.map (fileBlock read2)) := by
  have hblock : ∀ (r : String → Except String String) (q : String), q ≠ rp →
      fileBlock read1 q = fileBlock read2 q := by
    intro _ q hq
    rw [fileBlock, fileBlock, readBody, readBody, hagree q hq]
  have hmap1 : l1.map (fileBlock read1) = l1.map (fileBlock read2) :=
    List.map_congr_left (fun q hq => hblock read1 q (fun hqe => hno1 (hqe ▸ hq)))
  have hmap2 : l2.map (fileBlock read1) = l2.map (fileBlock read2) :=
    List.map_congr_left (fun q hq => hblock read1 q (fun hqe => hno2 (hqe ▸ hq)))
  have herr : fileBlock read1 rp
      = "\n\n" ++ firstBannerLine rp ++ secondBannerLine rp
        ++ ("Error reading file: " ++ e ++ "\n") := by
    rw [fileBlock, readBody, h1]
  have hok : fileBlock read2 rp
      = "\n\n" ++ firstBannerLine rp ++ secondBannerLine rp ++ s := by
    rw [fileBlock, readBody, h2]
  constructor
  · rw [collectOutput, hsplit, List.map_append, List.map_cons, writeAll_append,
      writeAll_cons, hmap1, hmap2, herr]
    simp [String.append_assoc]
  · rw [collectOutput, hsplit, List.map_append, List.map_cons, writeAll_append,
      writeAll_cons, hok]
    simp [String.append_assoc]

/-- Claim C6, witness: a two-file run in which the first file fails to read
and the second is unaffected. -/
theorem C6_read_error_isolated_witness :
    collectOutput
        (fun q => if q = "a.cs" then Except.error "boom" else Except.ok "fine")
        (Dir.mk ["a.cs", "b.cs"] DirList.nil)
      = writeAll ([] : List String)
        ++ ("\n\n" ++ firstBannerLine "a.cs" ++ secondBannerLine "a.cs"
            ++ ("Error reading file: " ++ "boom" ++ "\n"))
        ++ writeAll (["b.cs"].map (fileBlock (fun _ => Except.ok "fine"))) := by
  have h := C6_read_error_isolated
    (fun q => if q = "a.cs" then Except.error "boom" else Except.ok "fine")
    (fun _ => Except.ok "fine")
    (Dir.mk ["a.cs", "b.cs"] DirList.nil) "a.cs" "boom" "fine" [] ["b.cs"]
    (by decide) (by decide) (by decide)
    (fun q hq => by simp [hq]) (by decide) (by decide)
  exact h.1.trans (by rw [show ([] : List String).map
    (fileBlock (fun _ => Except.ok "fine")) = [] from rfl])

/-- Claim C9: when the walk finds no qualifying file at all, the collector
still resolves the numbered output path, still creates that file -- with
empty content, zero characters -- and still reports success naming it. -/
theorem C9_empty_collection_still_creates (directory basename : String)
    (listing : List String) (read : String → Except String String) (tree : Dir)
    (hempty : walkDir "" tree = []) :
    (collect_source_files directory basename listing read tree).content = ""
    ∧ (collect_source_files directory basename listing read tree).content.length = 0
    ∧ (collect_source_files directory basename listing read tree).outputName
        = get_unique_output_filename directory basename listing
    ∧ (collect_source_files directory basename listing read tree).message
        = "Done. Output written to "
          ++ get_unique_output_filename directory basename listing := by
  have hc : (collect_source_files directory basename listing read tree).content = "" := by
    show collectOutput read tree = ""
    rw [collectOutput, hempty]
    rfl
  exact ⟨hc, by rw [hc]; rfl, rfl, rfl⟩

/-- Claim C9, witness: a tree holding only a non-qualifying file produces an
empty output file and the success message. -/
theorem C9_empty_collection_still_creates_witness :
    (collect_source_files "" "output.txt" [] (fun _ => Except.ok "x")
        (Dir.mk ["readme.md"] DirList.nil)).content = ""
    ∧ (collect_source_files "" "output.txt" [] (fun _ => Except.ok "x")
        (Dir.mk ["readme.md"] DirList.nil)).message
      = "Done. Output written to " ++ get_unique_output_filename "" "output.txt" [] := by
  have h := C9_empty_collection_still_creates "" "output.txt" []
    (fun _ => Except.ok "x") (Dir.mk ["readme.md"] DirList.nil) (by decide)
  exact ⟨h.1, h.2.2.2⟩

/- ===================== Helper lemmas: sorting ===================== -/

lemma insertSorted_perm (a : String) : ∀ l, (insertSorted a l).Perm (a :: l) := by
  intro l
  induction l with
  | nil => exact List.Perm.refl _
  | cons b t ih =>
    by_cases h : strLe a b
    · rw [insertSorted, if_pos h]
    · rw [insertSorted, if_neg h]
      exact (List.Perm.cons b ih).trans (List.Perm.swap a b t)

lemma sortStrings_perm : ∀ l, (sortStrings l).Perm l := by
  intro l
  induction l with
  | nil => exact List.Perm.refl _
  | cons a t ih =>
    rw [sortStrings]
    exact (insertSorted_perm a (sortStrings t)).trans (List.Perm.cons a ih)

/- ===================== File addressing in the tree ===================== -/

/-- The named subdirectory occurs (with the given tree) in the listing. -/
inductive SubdirAt : DirList → String → Dir → Prop
  | head (d : String) (sub : Dir) (rest : DirList) : SubdirAt (.cons d sub rest) d sub
  | tail (d : String) (sub : Dir) {rest : DirList} {n : String} {s : Dir} :
      SubdirAt rest n s → SubdirAt (.cons d sub rest) n s

/-- A file of the input tree, addressed by the chain of directory names
leading from the root down to it and by its own name. -/
inductive FileIn : Dir → List String → String → Prop
  | here {fs : List String} {sds : DirList} {f : String} :
      f ∈ fs → FileIn (.mk fs sds) [] f
  | there {fs : List String} {sds : DirList} {n : String} {sub : Dir}
      {ds : List String} {f : String} :
      SubdirAt sds n sub → FileIn sub ds f → FileIn (.mk fs sds) (n :: ds) f

/- Full characterization of the walk: a relative path is emitted exactly
when it addresses a file of the tree whose whole directory chain survives
pruning and whose name passes the extension filter.  The two lemmas are
proved together by structural recursion over the tree. -/
mutual
theorem mem_walkDir_iff : ∀ (rel rp : String) (d : Dir),
    rp ∈ walkDir rel d ↔ ∃ ds f, FileIn d ds f ∧ (∀ n ∈ ds, keepDir n = true)
      ∧ allowedFile f = true ∧ rp = rel ++ relPathOf ds f
  | rel, rp, .mk fs sds => by
    rw [walkDir, List.mem_append]
    constructor
    · rintro (hmem | hmem)
      · rw [List.mem_map] at hmem
        obtain ⟨f, hf, hrp⟩ := hmem
        rw [List.mem_filter] at hf
        obtain ⟨hfs, hall⟩ := hf
        exact ⟨[], f, FileIn.here ((sortStrings_perm fs).mem_iff.mp hfs),
          by simp, hall, hrp.symm⟩
      · obtain ⟨n, sub, ds, f, hsub, hkn, hin, hkds, hall, hrp⟩ :=
          (mem_walkSubdirs_iff rel rp sds).mp hmem
        refine ⟨n :: ds, f, FileIn.there hsub hin, ?_, hall, ?_⟩
        · intro m hm
          rcases List.mem_cons.mp hm with h | h
          · rw [h]; exact hkn
          · exact hkds m h
        · rw [hrp]
          show rel ++ n ++ "/" ++ relPathOf ds f = rel ++ (n ++ "/" ++ relPathOf ds f)
          simp [String.append_assoc]
    · rintro ⟨ds, f, hin, hkds, hall, hrp⟩
      cases hin with
      | here hf =>
        left
        rw [List.mem_map]
        exact ⟨f, List.mem_filter.mpr ⟨(sortStrings_perm fs).mem_iff.mpr hf, hall⟩, hrp.symm⟩
      | @there _ _ n sub ds2 _ hsub hin2 =>
        right
        apply (mem_walkSubdirs_iff rel rp sds).mpr
        refine ⟨n, sub, ds2, f, hsub, hkds n (List.mem_cons_self _ _), hin2,
          fun m hm => hkds m (List.mem_cons_of_mem _ hm), hall, ?_⟩
        rw [hrp]
        show rel ++ (n ++ "/" ++ relPathOf ds2 f) = rel ++ n ++ "/" ++ relPathOf ds2 f
        simp [String.append_assoc]

theorem mem_walkSubdirs_iff : ∀ (rel rp : String) (l : DirList),
    rp ∈ walkSubdirs rel l ↔ ∃ n sub ds f, SubdirAt l n sub ∧ keepDir n = true
      ∧ FileIn sub ds f ∧ (∀ m ∈ ds, keepDir m = true) ∧ allowedFile f = true
      ∧ rp = rel ++ n ++ "/" ++ relPathOf ds f
  | rel, rp, .nil => by
    rw [walkSubdirs]
    constructor
    · intro h
      exact absurd h (List.not_mem_nil rp)
    · rintro ⟨n, sub, ds, f, hsub, -⟩
      cases hsub
  | rel, rp, .cons d sub rest => by
    rw [walkSubdirs, List.mem_append]
    constructor
    · rintro (hmem | hmem)
      · by_cases hk : keepDir d
        · rw [if_pos hk] at hmem
          obtain ⟨ds, f, hin, hkds, hall, hrp⟩ :=
            (mem_walkDir_iff (rel ++ d ++ "/") rp sub).mp hmem
          exact ⟨d, sub, ds, f, SubdirAt.head d sub rest, hk, hin, hkds, hall, hrp⟩
        · rw [if_neg hk] at hmem
          exact absurd hmem (List.not_mem_nil rp)
      · obtain ⟨n, s2, ds, f, hsub, hkn, hin, hkds, hall, hrp⟩ :=
          (mem_walkSubdirs_iff rel rp rest).mp hmem
        exact ⟨n, s2, ds, f, SubdirAt.tail d sub hsub, hkn, hin, hkds, hall, hrp⟩
    · rintro ⟨n, s2, ds, f, hsub, hkn, hin, hkds, hall, hrp⟩
      cases hsub with
      | head =>
        left
        rw [if_pos hkn]
        exact (mem_walkDir_iff (rel ++ d ++ "/") rp sub).mpr ⟨ds, f, hin, hkds, hall, hrp⟩
      | tail _ _ hsub2 =>
        right
        exact (mem_walkSubdirs_iff rel rp rest).mpr
          ⟨n, s2, ds, f, hsub2, hkn, hin, hkds, hall, hrp⟩
end

/- ===================== Helper lemmas: the lexicographic order ===================== -/

lemma charListLe_trans : ∀ a b c, charListLe a b = true → charListLe b c = true →
    charListLe a c = true := by
  intro a
  induction a with
  | nil => intro b c _ _; rfl
  | cons x xs ih =>
    intro b c h1 h2
    cases b with
    | nil => simp [charListLe] at h1
    | cons y ys =>
      cases c with
      | nil => simp [charListLe] at h2
      | cons z zs =>
        simp only [charListLe] at h1 h2 ⊢
        split_ifs at h1 h2 ⊢ <;>
          first
            | rfl
            | omega
            | exact ih ys zs h1 h2

lemma charListLe_total : ∀ a b, charListLe a b = true ∨ charListLe b a = true := by
  intro a
  induction a with
  | nil => intro b; left; rfl
  | cons x xs ih =>
    intro b
    cases b with
    | nil => right; rfl
    | cons y ys =>
      simp only [charListLe]
      split_ifs <;>
        first
          | exact Or.inl rfl
          | exact Or.inr rfl
          | omega
          | exact ih ys

lemma charListLe_antisymm : ∀ a b, charListLe a b = true → charListLe b a = true →
    a = b := by
  intro a
  induction a with
  | nil =>
    intro b h1 h2
    cases b with
    | nil => rfl
    | cons y ys => simp [charListLe] at h2
  | cons x xs ih =>
    intro b h1 h2
    cases b with
    | nil => simp [charListLe] at h1
    | cons y ys =>
      simp only [charListLe] at h1 h2
      split_ifs at h1 h2 <;>
        first
          | omega
          | simp at h1
          | simp at h2
          | (have hxy : x = y := by
              apply Char.ext
              apply UInt32.toNat.inj
              show x.toNat = y.toNat
              omega
             rw [hxy, ih ys h1 h2])

lemma strLe_total (a b : String) : strLe a b = true ∨ strLe b a = true :=
  charListLe_total a.data b.data

lemma strLe_trans {a b c : String} (h1 : strLe a b = true) (h2 : strLe b c = true) :
    strLe a c = true :=
  charListLe_trans a.data b.data c.data h1 h2

lemma strLe_antisymm (a b : String) (h1 : strLe a b = true) (h2 : strLe b a = true) :
    a = b :=
  String.ext (charListLe_antisymm a.data b.data h1 h2)

lemma pairwise_insertSorted (a : String) :
    ∀ l, List.Pairwise (fun x y => strLe x y = true) l →
      List.Pairwise (fun x y => strLe x y = true) (insertSorted a l) := by
  intro l
  induction l with
  | nil => intro _; simp [insertSorted]
  | cons b t ih =>
    intro h
    obtain ⟨hb, ht⟩ := List.pairwise_cons.mp h
    by_cases hab : strLe a b
    · rw [insertSorted, if_pos hab]
      refine List.pairwise_cons.mpr ⟨?_, h⟩
      intro x hx
      rcases List.mem_cons.mp hx with hxb | hxt
      · rw [hxb]; exact hab
      · exact strLe_trans hab (hb x hxt)
    · rw [insertSorted, if_neg hab]
      refine List.pairwise_cons.mpr ⟨?_, ih ht⟩
      intro x hx
      rcases List.mem_cons.mp ((insertSorted_perm a t).mem_iff.mp hx) with hxa | hxt
      · rw [hxa]
        rcases strLe_total a b with h1 | h1
        · exact absurd h1 hab
        · exact h1
      · exact hb x hxt

lemma sortStrings_sorted : ∀ l, List.Pairwise (fun x y => strLe x y = true) (sortStrings l) := by
  intro l
  induction l with
  | nil => simp [sortStrings]
  | cons a t ih => exact pairwise_insertSorted a (sortStrings t) ih

/- ===================== Claims C2, C7, C10 ===================== -/

lemma keepDir_iff (n : String) : keepDir n = true ↔
    (¬ (strLower n = "bin" ∨ strLower n = "obj") ∧ startsChars ['.'] n.data = false) := by
  simp [keepDir, EXCLUDED_FOLDERS]

lemma allowedFile_iff (f : String) : allowedFile f = true ↔
    (endsWithChars ".cs".data (strLower f).data = true
      ∨ endsWithChars ".xaml".data (strLower f).data = true
      ∨ endsWithChars ".csproj".data (strLower f).data = true
      ∨ endsWithChars ".sln".data (strLower f).data = true
      ∨ endsWithChars ".json".data (strLower f).data = true) := by
  simp [allowedFile, ALLOWED_EXTENSIONS]

/-- Claim C2: a relative path appears among the emitted files exactly when it
addresses a file of the input tree whose lowercased name ends with one of
.cs, .xaml, .csproj, .sln, .json, and every directory component below the
root on the way to it is neither bin nor obj (compared lowercased) nor starts
with a dot; pruning is hereditary because the condition constrains every
component of the chain. -/
theorem C2_collector_emits_exactly (d : Dir) (rp : String) :
    rp ∈ walkDir "" d ↔
      ∃ ds f, FileIn d ds f
        ∧ (∀ n ∈ ds, ¬ (strLower n = "bin" ∨ strLower n = "obj")
            ∧ startsChars ['.'] n.data = false)
        ∧ (endsWithChars ".cs".data (strLower f).data = true
            ∨ endsWithChars ".xaml".data (strLower f).data = true
            ∨ endsWithChars ".csproj".data (strLower f).data = true
            ∨ endsWithChars ".sln".data (strLower f).data = true
            ∨ endsWithChars ".json".data (strLower f).data = true)
        ∧ rp = relPathOf ds f := by
  rw [mem_walkDir_iff]
  constructor
  · rintro ⟨ds, f, hin, hk, ha, hrp⟩
    exact ⟨ds, f, hin, fun n hn => (keepDir_iff n).mp (hk n hn), (allowedFile_iff f).mp ha,
      by rw [hrp, empty_str_append]⟩
  · rintro ⟨ds, f, hin, hk, ha, hrp⟩
    exact ⟨ds, f, hin, fun n hn => (keepDir_iff n).mpr (hk n hn), (allowedFile_iff f).mpr ha,
      by rw [hrp, empty_str_append]⟩

/-- Claim C2, witness: in a tree with one qualifying file two levels down,
the characterization produces exactly that file's relative path. -/
theorem C2_collector_emits_exactly_witness :
    "src/a.cs" ∈ walkDir "" (Dir.mk ["readme.md"]
        (DirList.cons "src" (Dir.mk ["a.cs"] DirList.nil) DirList.nil)) := by
  exact (C2_collector_emits_exactly _ _).mpr
    ⟨["src"], "a.cs",
      FileIn.there (SubdirAt.head _ _ _) (FileIn.here (by decide)),
      by decide, by decide, by decide⟩

/-- Claim C7: in every visited directory the emitted files are this
directory's sorted, filtered file list first, then the subdirectory walks;
that file list is sorted under the lexicographic code-point order used by
the sort, and it does not depend on the order in which the operating system
lists the directory (any permutation of the file listing produces the same
walk). -/
theorem C7_files_in_sorted_order (rel : String) (fs fs2 : List String) (sds : DirList)
    (hperm : fs.Perm fs2) :
    walkDir rel (.mk fs sds)
      = ((sortStrings fs).filter allowedFile).map (fun f => rel ++ f) ++ walkSubdirs rel sds
    ∧ List.Pairwise (fun a b => strLe a b = true) ((sortStrings fs).filter allowedFile)
    ∧ walkDir rel (.mk fs sds) = walkDir rel (.mk fs2 sds) := by
  refine ⟨by rw [walkDir], ?_, ?_⟩
  · exact List.Pairwise.sublist (List.filter_sublist _) (sortStrings_sorted fs)
  · have hss : sortStrings fs = sortStrings fs2 :=
      @List.eq_of_perm_of_sorted String (fun a b => strLe a b = true) ⟨strLe_antisymm⟩ _ _
        ((sortStrings_perm fs).trans (hperm.trans (sortStrings_perm fs2).symm))
        (sortStrings_sorted fs) (sortStrings_sorted fs2)
    rw [walkDir, walkDir, hss]

/-- Claim C7, witness: two listing orders of the same two files produce the
same walk. -/
theorem C7_files_in_sorted_order_witness :
    walkDir "x/" (Dir.mk ["b.cs", "a.cs"] DirList.nil)
      = walkDir "x/" (Dir.mk ["a.cs", "b.cs"] DirList.nil) :=
  (C7_files_in_sorted_order "x/" ["b.cs", "a.cs"] ["a.cs", "b.cs"] DirList.nil
    (by decide)).2.2

/-- Claim C10: the hidden-name test is applied to directory names only; a
file whose own name starts with a dot is still collected whenever it passes
the extension filter and its directory chain survives pruning. -/
theorem C10_hidden_files_collected (d : Dir) (ds : List String) (f : String)
    (hin : FileIn d ds f) (hkeep : ∀ n ∈ ds, keepDir n = true)
    (hhid : startsChars ['.'] f.data = true) (hall : allowedFile f = true) :
    relPathOf ds f ∈ walkDir "" d := by
  rw [mem_walkDir_iff]
  exact ⟨ds, f, hin, hkeep, hall, (empty_str_append _).symm⟩

/-- Claim C10, witness: the file .hidden.cs at the root of the tree is
emitted. -/
theorem C10_hidden_files_collected_witness :
    relPathOf [] ".hidden.cs" ∈ walkDir "" (Dir.mk [".hidden.cs"] DirList.nil) :=
  C10_hidden_files_collected _ [] ".hidden.cs" (FileIn.here (by decide))
    (by decide) (by decide) (by decide)

/- ===================== Claim C8 ===================== -/

/-- Claim C8, counterexample to the claim as stated.  On a wrong argument
count the program prints exactly two lines: one usage line and one example
line, not a usage message plus two example lines. -/
theorem C8_counterexample :
    mainOutcome ["cs_dump.py"] (fun _ => true)
      = MainOutcome.usage [usageLine, exampleLine] 0
    ∧ [usageLine, exampleLine].countP (fun l => startsChars "Example".data l.data) = 1
    ∧ [usageLine, exampleLine].length = 2
    ∧ (1 : Nat) ≠ 2 := by
  refine ⟨rfl, by decide, rfl, by decide⟩

/-- Claim C8 (amended): on an argument count other than two positional
arguments the program prints the usage line and one example line to standard
output and falls off the end of the script, exiting with the implicit
success status zero; with two positional arguments and an input path that is
not a directory it prints the error line and exits with status one;
otherwise the collector runs. -/
theorem C8_cli_behavior (argv : List String) (isDir : String → Bool) :
    (argv.length ≠ 3 →
      mainOutcome argv isDir = MainOutcome.usage [usageLine, exampleLine] 0)
    ∧ (∀ p i o, argv = [p, i, o] → isDir i = false →
      mainOutcome argv isDir
        = MainOutcome.badInput ["Error: Input folder '" ++ i ++ "' not found."] 1)
    ∧ (∀ p i o, argv = [p, i, o] → isDir i = true →
      mainOutcome argv isDir = MainOutcome.ran i o 0) := by
  refine ⟨?_, ?_, ?_⟩
  · intro hlen
    rcases argv with _ | ⟨a, _ | ⟨b, _ | ⟨c, _ | ⟨d, t⟩⟩⟩⟩
    · rfl
    · rfl
    · rfl
    · simp at hlen
    · rfl
  · intro p i o heq hdir
    rw [heq]
    simp [mainOutcome, hdir]
  · intro p i o heq hdir
    rw [heq]
    simp [mainOutcome, hdir]

/-- Claim C8, witness: the three entry paths at concrete arguments. -/
theorem C8_cli_behavior_witness :
    mainOutcome ["cs_dump.py"] (fun _ => true)
      = MainOutcome.usage [usageLine, exampleLine] 0
    ∧ mainOutcome ["cs_dump.py", "missing", "out.txt"] (fun _ => false)
      = MainOutcome.badInput ["Error: Input folder '" ++ "missing" ++ "' not found."] 1
    ∧ mainOutcome ["cs_dump.py", "proj", "out.txt"] (fun _ => true)
      = MainOutcome.ran "proj" "out.txt" 0 :=
  ⟨(C8_cli_behavior ["cs_dump.py"] (fun _ => true)).1 (by decide),
   (C8_cli_behavior ["cs_dump.py", "missing", "out.txt"] (fun _ => false)).2.1
     "cs_dump.py" "missing" "out.txt" rfl rfl,
   (C8_cli_behavior ["cs_dump.py", "proj", "out.txt"] (fun _ => true)).2.2
     "cs_dump.py" "proj" "out.txt" rfl rfl⟩
